import Mathlib

/-!
Verification of the Handy speech-capture engine (Rust sources under
`src/src-tauri/src/`) against its natural-language specification.

Each Rust function relevant to the checked claims is shallowly embedded as a
Lean definition that mirrors the source line by line:

* `audio_toolkit/audio/mixer.rs`    → namespace `Handy.Mixer`
* `managers/ask_ai.rs`              → namespace `Handy.AskAi`
* `managers/audio.rs`               → namespace `Handy.Audio`
* `ollama_client.rs`                → namespace `Handy.Ollama`
* `managers/active_listening.rs`    → namespace `Handy.AL`
* `managers/rag.rs`                 → namespace `Handy.Rag`

Representation choices, stated once:

* `f32` sample values never influence any checked property through their
  arithmetic, so audio samples are embedded as exact rationals (`ℚ`); the
  mixer and padding claims only depend on buffer lengths and on which branch
  the code takes.
* For the byte-level blob encoding, an `f32` is represented by its 32-bit
  pattern (a `Nat < 2^32`); `to_le_bytes` / `from_le_bytes` act on exactly
  that pattern in Rust, so the embedding is bit-faithful.
* `cosine_similarity` is embedded over `ℝ` with the same guard structure as
  the Rust source; the claims about it concern which guard fires, not
  floating-point rounding.
* Rust `String`s are embedded as `String` or `List Char` (`Vec<char>`),
  whichever matches how the source manipulates them; `str::replace` and the
  chunker's byte arithmetic are reproduced explicitly.
* Loops whose Rust originals are `while` loops that may not terminate
  (`RagManager::chunk_text` can loop forever) are embedded with an explicit
  fuel parameter returning `Option`; `none` means the fuel ran out before
  the loop finished.
-/

namespace Handy

/-! ## Mixer (`audio_toolkit/audio/mixer.rs`) -/

namespace Mixer

/-- `MAX_BUFFER_SIZE` from `mixer.rs` (~5 s at 16 kHz). -/
def MAX_BUFFER_SIZE : Nat := 80000

/-- `AudioMixer`: two sample buffers, a mix ratio and the normalize flag. -/
structure AudioMixer where
  mic_buffer : List ℚ
  system_buffer : List ℚ
  mix_ratio : ℚ
  normalize : Bool

/-- Ring-buffer push: append, then pop oldest while over `MAX_BUFFER_SIZE`
(`push_mic` / `push_system` in `mixer.rs`). -/
def pushRing (buf samples : List ℚ) : List ℚ :=
  let b := buf ++ samples
  b.drop (b.length - MAX_BUFFER_SIZE)

/-- `AudioMixer::push_mic`. -/
def AudioMixer.push_mic (m : AudioMixer) (samples : List ℚ) : AudioMixer :=
  { m with mic_buffer := pushRing m.mic_buffer samples }

/-- `AudioMixer::push_system`. -/
def AudioMixer.push_system (m : AudioMixer) (samples : List ℚ) : AudioMixer :=
  { m with system_buffer := pushRing m.system_buffer samples }

/-- `AudioMixer::available_samples`: the minimum of both buffer lengths. -/
def AudioMixer.available_samples (m : AudioMixer) : Nat :=
  min m.mic_buffer.length m.system_buffer.length

/-- `AudioMixer::normalize_samples`: scale down by the peak when it
exceeds 1.0; never scale up. -/
def normalize_samples (samples : List ℚ) : List ℚ :=
  let max_abs := (samples.map (fun s => |s|)).foldl max 0
  if 1 < max_abs then samples.map (fun s => s * (1 / max_abs)) else samples

/-- `AudioMixer::mix`: consume `available_samples` from each buffer,
weight-mix them, optionally normalize, and return the output together with
the updated mixer. -/
def AudioMixer.mix (m : AudioMixer) : List ℚ × AudioMixer :=
  let count := m.available_samples
  if count = 0 then ([], m)
  else
    let micTaken := m.mic_buffer.take count
    let sysTaken := m.system_buffer.take count
    let mic_weight := 1 - m.mix_ratio
    let output := List.zipWith
      (fun mic sys => mic * mic_weight + sys * m.mix_ratio) micTaken sysTaken
    let output := if m.normalize ∧ output ≠ [] then normalize_samples output else output
    (output,
     { m with
        mic_buffer := m.mic_buffer.drop count
        system_buffer := m.system_buffer.drop count })

end Mixer

/-! ## Ask AI conversations (`managers/ask_ai.rs`) -/

namespace AskAi

/-- `MAX_CONTEXT_TURNS` from `ask_ai.rs`. -/
def MAX_CONTEXT_TURNS : Nat := 10

/-- `ConversationTurn`. -/
structure ConversationTurn where
  id : String
  question : String
  response : String
  timestamp : Int
  audio_file_name : Option String
deriving DecidableEq

/-- `AskAiConversation`. -/
structure AskAiConversation where
  id : String
  turns : List ConversationTurn
  created_at : Int
  updated_at : Int
  title : Option String
deriving DecidableEq

/-- `AskAiConversation::build_context`: take the last `MAX_CONTEXT_TURNS`
turns and render each as `User: {q}\n` then `Assistant: {r}\n\n`,
accumulating left-to-right exactly as the two `push_str` calls do. -/
def build_context (c : AskAiConversation) : String :=
  let start_idx :=
    if c.turns.length > MAX_CONTEXT_TURNS then c.turns.length - MAX_CONTEXT_TURNS else 0
  (c.turns.drop start_idx).foldl
    (fun acc t =>
      (acc ++ ("User: " ++ t.question ++ "\n")) ++ ("Assistant: " ++ t.response ++ "\n\n"))
    ""

/-- Spec-side rendering of one turn: `"User: {question}\nAssistant: {response}\n\n"`. -/
def renderTurn (t : ConversationTurn) : String :=
  "User: " ++ t.question ++ "\n" ++ "Assistant: " ++ t.response ++ "\n\n"

/-- Spec-side rendering of a list of turns, concatenated in order. -/
def renderTurns (l : List ConversationTurn) : String :=
  l.foldr (fun t acc => renderTurn t ++ acc) ""

/-- The last `n` elements of a list (all of it when it is shorter). -/
def lastTurns (n : Nat) (l : List ConversationTurn) : List ConversationTurn :=
  l.drop (l.length - n)

end AskAi

/-! ## Recording manager (`managers/audio.rs`) -/

namespace Audio

/-- `WHISPER_SAMPLE_RATE` from `audio.rs`. -/
def WHISPER_SAMPLE_RATE : Nat := 16000

/-- `RecordingState`. -/
inductive RecordingState where
  | Idle : RecordingState
  | Recording (binding_id : String) : RecordingState
deriving DecidableEq

/-- The mutable recording fields of `AudioRecordingManager` that the
recording claims touch: the `state` mutex and the `is_recording` flag. -/
structure RecState where
  state : RecordingState
  is_recording : Bool
deriving DecidableEq

/-- `AudioRecordingManager::try_start_recording`.  `start_ok` abstracts the
environment: it is `true` iff opening the on-demand microphone stream and
`rec.start()` both succeed (on failure the source returns `false` with the
state untouched).  Returns the source's `bool` plus the updated state. -/
def try_start_recording (binding_id : String) (start_ok : Bool) (st : RecState) :
    Bool × RecState :=
  match st.state with
  | RecordingState.Idle =>
      if start_ok then
        (true, { state := RecordingState.Recording binding_id, is_recording := true })
      else (false, st)
  | RecordingState.Recording _ => (false, st)

/-- `AudioRecordingManager::stop_recording`.  `recorded` is the buffer that
`rec.stop()` hands back.  Only the owning binding gets samples; short
non-empty buffers are resized (zero right-padding) to
`WHISPER_SAMPLE_RATE * 5 / 4 = 20000` samples. -/
def stop_recording (binding_id : String) (recorded : List ℚ) (st : RecState) :
    RecState × Option (List ℚ) :=
  match st.state with
  | RecordingState.Recording active =>
      if active = binding_id then
        let s_len := recorded.length
        let result :=
          if s_len < WHISPER_SAMPLE_RATE ∧ s_len > 0 then
            recorded ++ List.replicate (WHISPER_SAMPLE_RATE * 5 / 4 - s_len) (0 : ℚ)
          else recorded
        ({ state := RecordingState.Idle, is_recording := false }, some result)
      else (st, none)
  | RecordingState.Idle => (st, none)

/-- `AudioRecordingManager::cancel_recording`: drop samples, return to Idle. -/
def cancel_recording (st : RecState) : RecState :=
  match st.state with
  | RecordingState.Recording _ => { state := RecordingState.Idle, is_recording := false }
  | RecordingState.Idle => st

/-- The recording-related calls a binding can make, for stating the
exclusivity invariant over whole call sequences. -/
inductive RecEvent where
  | tryStart (binding_id : String) (start_ok : Bool) : RecEvent
  | stop (binding_id : String) (recorded : List ℚ) : RecEvent
  | cancel : RecEvent

/-- One recording call applied to the state. -/
def recStep (st : RecState) : RecEvent → RecState
  | RecEvent.tryStart b ok => (try_start_recording b ok st).2
  | RecEvent.stop b rec => (stop_recording b rec st).1
  | RecEvent.cancel => cancel_recording st

/-- A sequence of recording calls applied in order. -/
def recRun (st : RecState) (evs : List RecEvent) : RecState :=
  evs.foldl recStep st

/-- Events that can release binding `a`'s ownership: `cancel_recording`, or
`stop_recording` called by `a` itself. -/
def releasesOwnership (a : String) : RecEvent → Prop
  | RecEvent.cancel => True
  | RecEvent.stop b _ => b = a
  | RecEvent.tryStart _ _ => False

end Audio

/-! ## Prompt templating (`ollama_client.rs`) -/

namespace Ollama

/-- Rust `str::replace` on character lists, with explicit fuel (the fuel is
always instantiated to the haystack length, which suffices because every
step consumes at least one character when the pattern is non-empty; all
patterns used by the templating code are non-empty literals).  Matches are
found left to right and are non-overlapping; replacement text is not
rescanned within one call. -/
def replaceListAux (pat rep : List Char) : Nat → List Char → List Char
  | 0, s => s
  | _ + 1, [] => []
  | fuel + 1, c :: cs =>
      if pat ≠ [] ∧ pat.isPrefixOf (c :: cs) then
        rep ++ replaceListAux pat rep fuel ((c :: cs).drop pat.length)
      else
        c :: replaceListAux pat rep fuel cs

/-- Rust `str::replace pat → rep` over `s` (non-empty `pat`). -/
def replaceList (pat rep s : List Char) : List Char :=
  replaceListAux pat rep s.length s

/-- The `\x7b\x7btranscription\x7d\x7d` placeholder. -/
def transcriptionVar : List Char := "\x7b\x7btranscription\x7d\x7d".toList

/-- The `\x7b\x7bprevious_context\x7d\x7d` placeholder. -/
def previousContextVar : List Char := "\x7b\x7bprevious_context\x7d\x7d".toList

/-- The `\x7b\x7bsession_topic\x7d\x7d` placeholder. -/
def sessionTopicVar : List Char := "\x7b\x7bsession_topic\x7d\x7d".toList

/-- The `\x7b\x7bretrieved_context\x7d\x7d` placeholder. -/
def retrievedContextVar : List Char := "\x7b\x7bretrieved_context\x7d\x7d".toList

/-- `apply_prompt_template_with_rag` from `ollama_client.rs`: four
successive `String::replace` calls, in source order. -/
def apply_prompt_template_with_rag (template transcription previous_context : List Char)
    (session_topic retrieved_context : Option (List Char)) : List Char :=
  let r1 := replaceList transcriptionVar transcription template
  let r2 := replaceList previousContextVar previous_context r1
  let r3 := replaceList sessionTopicVar (session_topic.getD "Not specified".toList) r2
  let r4 := replaceList retrievedContextVar
    (retrieved_context.getD "No additional context available".toList) r3
  r4

end Ollama

/-! ## Active Listening manager (`managers/active_listening.rs`) -/

namespace AL

/-- `ActiveListeningState`. -/
inductive ALState where
  | Idle : ALState
  | Listening : ALState
  | Processing : ALState
  | Error : ALState
deriving DecidableEq

/-- `SessionInsight`. -/
structure SessionInsight where
  timestamp : Int
  transcription : String
  insight : String
  duration_ms : Nat
  speaker_id : Option Nat
  speaker_label : Option String
deriving DecidableEq

/-- `ActiveListeningSession`. -/
structure ALSession where
  id : String
  started_at : Int
  ended_at : Option Int
  topic : Option String
  insights : List SessionInsight
deriving DecidableEq

/-- The mutexed fields of `ActiveListeningManager` the session claims
touch (`state`, `current_session`, `segment_buffer`, `segment_start_time`,
`context_buffer`, `current_segment_speaker`).  `segment_start_time` holds
an instant, modelled as an integer timestamp. -/
structure ALManager where
  state : ALState
  current_session : Option ALSession
  segment_buffer : List ℚ
  segment_start_time : Option Int
  context_buffer : List String
  current_segment_speaker : Option Nat
deriving DecidableEq

/-- The data captured into the spawned segment-processing task
(`process_segment_with_session` arguments). -/
structure SpawnedSegment where
  samples : List ℚ
  session_id : String
  topic : Option String
  speaker_id : Option Nat
deriving DecidableEq

/-- `ActiveListeningManager::stop_session` at time `now`.  Mirrors the
source: an early `Ok(None)` return when Idle (touching nothing); otherwise
state becomes Idle, the current session is *taken* out of its slot with
`ended_at := now`, the segment buffer and start instant are cleared (the
context buffer is not), and the closed session is returned. -/
def stop_session (now : Int) (m : ALManager) : ALManager × Option ALSession :=
  if m.state = ALState.Idle then (m, none)
  else
    let closed := m.current_session.map (fun s => { s with ended_at := some now })
    ({ m with
        state := ALState.Idle
        current_session := none
        segment_buffer := []
        segment_start_time := none },
     closed)

/-- `ActiveListeningManagerHandle::add_insight_to_session`: append the
insight only when the current-session slot is occupied by a session with
the matching id; otherwise do nothing. -/
def add_insight_to_session (session_id : String) (ins : SessionInsight) (m : ALManager) :
    ALManager :=
  match m.current_session with
  | some s =>
      if s.id = session_id then
        { m with current_session := some { s with insights := s.insights ++ [ins] } }
      else m
  | none => m

/-- `ActiveListeningManager::trigger_segment_processing` at time `now`:
snapshot and clear the segment buffer, reset the start instant, consume the
segment speaker, capture `(session_id, topic)` from the current session
(bailing out when the slot is empty), flip the state to Processing and
return the data handed to the spawned task (`none` = no task spawned). -/
def trigger_segment_processing (now : Int) (m : ALManager) : ALManager × Option SpawnedSegment :=
  let samples := m.segment_buffer
  let m1 := { m with segment_buffer := [], segment_start_time := some now }
  if samples = [] then (m1, none)
  else
    let speaker_id := m1.current_segment_speaker
    let m2 := { m1 with current_segment_speaker := none }
    match m2.current_session with
    | none => (m2, none)
    | some s =>
        ({ m2 with state := ALState.Processing },
         some { samples := samples, session_id := s.id, topic := s.topic,
                speaker_id := speaker_id })

/-- `ActiveListeningManager::push_audio_samples` at time `now`: a no-op
unless Listening; otherwise set the start instant if unset, record the
diarizer's reported speaker if none is set for the segment, append the
samples, and trigger segment processing once
`now - start ≥ segment_duration_ms`.  `reported_speaker` is the diarizer's
`get_current_speaker()` result. -/
def push_audio_samples (samples : List ℚ) (now : Int) (segment_duration_ms : Nat)
    (reported_speaker : Nat) (m : ALManager) : ALManager × Option SpawnedSegment :=
  if m.state ≠ ALState.Listening then (m, none)
  else
    let start := m.segment_start_time.getD now
    let m1 := { m with
        segment_start_time := some start
        current_segment_speaker := some (m.current_segment_speaker.getD reported_speaker)
        segment_buffer := m.segment_buffer ++ samples }
    if now - start ≥ (segment_duration_ms : Int) then
      trigger_segment_processing now m1
    else (m1, none)

end AL

/-! ## RAG store (`managers/rag.rs`) -/

namespace Rag

/-- Rust `char::is_whitespace`: the Unicode `White_Space` code points. -/
def rustIsWhitespace (c : Char) : Bool :=
  c.toNat ∈ ([0x09, 0x0A, 0x0B, 0x0C, 0x0D, 0x20, 0x85, 0xA0, 0x1680,
    0x2000, 0x2001, 0x2002, 0x2003, 0x2004, 0x2005, 0x2006, 0x2007, 0x2008,
    0x2009, 0x200A, 0x2028, 0x2029, 0x202F, 0x205F, 0x3000] : List Nat)

/-- The sentence terminators the chunker breaks at (`.` `!` `?`). -/
def isSentenceTerm (c : Char) : Bool :=
  c = '.' || c = '!' || c = '?'

/-- Index of the last element satisfying `p` (Rust `str::rfind` returns the
byte index of that character; slicing at it is slicing at this character
index). -/
def lastIdx (p : Char → Bool) : List Char → Option Nat
  | [] => none
  | c :: cs =>
      match lastIdx p cs with
      | some i => some (i + 1)
      | none => if p c then some 0 else none

/-- Rust `str::len` of a character list: total UTF-8 byte length. -/
def utf8Len (l : List Char) : Nat :=
  (l.map Char.utf8Size).sum

/-- Rust `str::trim(..).is_empty()` is false iff some character is
non-whitespace. -/
def hasNonWs (l : List Char) : Bool :=
  l.any (fun c => !rustIsWhitespace c)

/-- The 500-character window `chars[start..end]` with
`end = min(start + chunk_size, chars.len())`, as in `chunk_text`. -/
def chunkWindow (chars : List Char) (start : Nat) : List Char :=
  (chars.drop start).take (min (start + 500) chars.length - start)

/-- The boundary truncation of one window from `chunk_text`: when the
window does not reach the end of the text, keep up to and including the
last sentence terminator; else drop from the last space on; else keep the
window (`rfind` returns the byte index of the last matching character,
and slicing there keeps exactly the characters before resp. through it). -/
def chunkCut (chars : List Char) (start : Nat) : List Char :=
  if min (start + 500) chars.length < chars.length then
    match lastIdx isSentenceTerm (chunkWindow chars start) with
    | some i => (chunkWindow chars start).take (i + 1)
    | none =>
        match lastIdx (fun c => c = ' ') (chunkWindow chars start) with
        | some i => (chunkWindow chars start).take i
        | none => chunkWindow chars start
  else chunkWindow chars start

/-- The `while` loop of `RagManager::chunk_text`, with fuel.  `chars` is
the full `Vec<char>`, `start` the current index.  Faithfully reproduces the
source's byte/char mixing: the window is cut by *character* index, but
`start` advances by the truncated chunk's *byte* length minus the 50-byte
overlap (`chunk.len().saturating_sub(overlap)`), saturating at zero — which
is why the Rust loop need not terminate.  `none` = fuel exhausted. -/
def chunkLoop (chars : List Char) : Nat → Nat → Option (List (List Char))
  | 0, _ => none
  | fuel + 1, start =>
      if start ≥ chars.length then some []
      else
        match chunkLoop chars fuel (start + (utf8Len (chunkCut chars start) - 50)) with
        | none => none
        | some rest =>
            some (if hasNonWs (chunkCut chars start) then chunkCut chars start :: rest
                  else rest)

/-- `RagManager::chunk_text` with fuel for the `while` loop: a text of at
most 500 characters is returned whole as a single chunk (with no whitespace
check); longer texts go through the loop. -/
def chunk_text (fuel : Nat) (text : List Char) : Option (List (List Char)) :=
  if text.length ≤ 500 then some [text] else chunkLoop text fuel 0

/-- Modelled from the spec (P8): concatenating all chunks without their
50-character overlap regions — the first chunk whole, every later chunk
with its first 50 characters removed. -/
def reconstructChunks : List (List Char) → List Char
  | [] => []
  | c :: rest => c ++ (rest.map (fun k => k.drop 50)).flatten

/-- Modelled from the spec (P8): strip trailing whitespace. -/
def stripTrailingWs (l : List Char) : List Char :=
  (l.reverse.dropWhile rustIsWhitespace).reverse

/-- `f32::to_le_bytes` on a 32-bit pattern: four bytes, least significant
first. -/
def u32ToLeBytes (w : Nat) : List Nat :=
  [w % 256, w / 256 % 256, w / 65536 % 256, w / 16777216 % 256]

/-- `f32::from_le_bytes` on a 4-byte chunk; a short chunk falls back to
`[0; 4]` (`try_into().unwrap_or`), i.e. the zero pattern. -/
def leBytesToU32 : List Nat → Nat
  | [b0, b1, b2, b3] => b0 + 256 * b1 + 65536 * b2 + 16777216 * b3
  | _ => 0

/-- Rust `slice::chunks(4)`: consecutive 4-element chunks, the last one
possibly shorter. -/
def chunks4 : List Nat → List (List Nat)
  | [] => []
  | [a] => [[a]]
  | [a, b] => [[a, b]]
  | [a, b, c] => [[a, b, c]]
  | a :: b :: c :: d :: rest => [a, b, c, d] :: chunks4 rest

/-- `RagManager::vec_to_blob`: flat-map each element's little-endian bytes. -/
def vec_to_blob (v : List Nat) : List Nat :=
  v.flatMap u32ToLeBytes

/-- `RagManager::blob_to_vec`: decode each 4-byte chunk. -/
def blob_to_vec (blob : List Nat) : List Nat :=
  (chunks4 blob).map leBytesToU32

/-- Sum of pairwise products (`a.iter().zip(b).map(|(x,y)| x*y).sum()`). -/
def dotf (a b : List ℝ) : ℝ :=
  (List.zipWith (fun x y => x * y) a b).sum

/-- Sum of squares (`a.iter().map(|x| x*x).sum()`). -/
def sumsq (a : List ℝ) : ℝ :=
  (a.map (fun x => x * x)).sum

/-- The vector norm the source computes: `sum of squares, then sqrt`. -/
noncomputable def vnorm (a : List ℝ) : ℝ :=
  Real.sqrt (sumsq a)

open Classical in
/-- `RagManager::cosine_similarity`, with the source's guard structure:
0 when the lengths differ or `a` is empty, 0 when either norm is zero,
otherwise the dot product over the product of norms.  Embedded over `ℝ`;
the checked claims concern which guard fires, not rounding. -/
noncomputable def cosine_similarity (a b : List ℝ) : ℝ :=
  if a.length ≠ b.length ∨ a = [] then 0
  else if vnorm a = 0 ∨ vnorm b = 0 then 0
  else dotf a b / (vnorm a * vnorm b)

/-- The per-row similarity scores `RagManager::search` computes before
sorting: one `cosine_similarity` against the query per stored row. -/
noncomputable def searchSimilarities (query : List ℝ) (rows : List (List ℝ)) : List ℝ :=
  rows.map (fun row => cosine_similarity query row)

end Rag

/-! ## Helper lemmas -/

/-- Normalization rescales samples pointwise, preserving the count. -/
theorem normalize_samples_length (l : List ℚ) :
    (Mixer.normalize_samples l).length = l.length := by
  simp only [Mixer.normalize_samples]
  split <;> simp

/-- Folding the two `push_str` calls of `build_context` over a turn list
appends the spec-side rendering of that list. -/
theorem build_context_foldl (l : List AskAi.ConversationTurn) (acc : String) :
    l.foldl
      (fun acc t =>
        (acc ++ ("User: " ++ t.question ++ "\n")) ++ ("Assistant: " ++ t.response ++ "\n\n"))
      acc = acc ++ AskAi.renderTurns l := by
  induction l generalizing acc with
  | nil => simp [AskAi.renderTurns, String.append_empty]
  | cons t ts ih =>
      rw [List.foldl_cons, ih]
      simp only [AskAi.renderTurns, List.foldr_cons, AskAi.renderTurn, String.append_assoc]

/-! ## Claim theorems -/

/-- **C5** (confirmed): for every mixer state, `available_samples()` equals
`min(len mic, len sys)`, and `mix()` produces exactly that many output
samples while consuming exactly that many from each buffer, leaving the
excess of the longer buffer in place (the remaining buffers are the `drop`
of the originals). -/
theorem mixer_fairness (m : Mixer.AudioMixer) :
    m.available_samples = min m.mic_buffer.length m.system_buffer.length ∧
    m.mix.1.length = m.available_samples ∧
    m.mix.2.mic_buffer = m.mic_buffer.drop m.available_samples ∧
    m.mix.2.system_buffer = m.system_buffer.drop m.available_samples ∧
    m.mix.2.mic_buffer.length = m.mic_buffer.length - m.available_samples ∧
    m.mix.2.system_buffer.length = m.system_buffer.length - m.available_samples := by
  have h1 : m.available_samples ≤ m.mic_buffer.length := by
    unfold Mixer.AudioMixer.available_samples
    exact min_le_left _ _
  have h2 : m.available_samples ≤ m.system_buffer.length := by
    unfold Mixer.AudioMixer.available_samples
    exact min_le_right _ _
  refine ⟨rfl, ?_⟩
  simp only [Mixer.AudioMixer.mix]
  by_cases hc : m.available_samples = 0
  · rw [if_pos hc]
    simp [hc]
  · rw [if_neg hc]
    refine ⟨?_, rfl, rfl, ?_, ?_⟩
    · split <;>
        simp [normalize_samples_length, List.length_zipWith, List.length_take] <;> omega
    · simp [List.length_drop]
    · simp [List.length_drop]

/-- **C3** (confirmed): the Ask AI context string is built from exactly the
last 10 turns when the conversation has more than 10 turns (and from all
turns otherwise), each turn rendered in order as
`"User: {question}\nAssistant: {response}\n\n"`. -/
theorem askai_context_window (c : AskAi.AskAiConversation) :
    (c.turns.length > 10 →
       AskAi.build_context c = AskAi.renderTurns (AskAi.lastTurns 10 c.turns) ∧
       (AskAi.lastTurns 10 c.turns).length = 10 ∧
       AskAi.lastTurns 10 c.turns = c.turns.drop (c.turns.length - 10)) ∧
    (c.turns.length ≤ 10 →
       AskAi.build_context c = AskAi.renderTurns c.turns) := by
  constructor
  · intro h
    refine ⟨?_, ?_, rfl⟩
    · unfold AskAi.build_context
      rw [if_pos (by simpa [AskAi.MAX_CONTEXT_TURNS] using h), build_context_foldl,
        String.empty_append]
      rfl
    · simp [AskAi.lastTurns, List.length_drop]
      omega
  · intro h
    simp only [AskAi.build_context]
    rw [if_neg (by simp [AskAi.MAX_CONTEXT_TURNS]; omega), List.drop_zero,
      build_context_foldl, String.empty_append]

/-- Witness for C3 at a concrete 11-turn conversation. -/
theorem askai_context_window_witness :
    AskAi.build_context
        ⟨"c", (List.range 11).map (fun i => ⟨toString i, toString i, toString i, 0, none⟩),
         0, 0, none⟩ =
      AskAi.renderTurns
        (AskAi.lastTurns 10
          ((List.range 11).map (fun i => ⟨toString i, toString i, toString i, 0, none⟩))) ∧
    (AskAi.lastTurns 10
        ((List.range 11).map
          (fun i => (⟨toString i, toString i, toString i, 0, none⟩ :
            AskAi.ConversationTurn)))).length = 10 := by
  have h := (askai_context_window
    ⟨"c", (List.range 11).map (fun i => ⟨toString i, toString i, toString i, 0, none⟩),
     0, 0, none⟩).1 (by decide)
  exact ⟨h.1, h.2.1⟩

/-- **C10** (confirmed): calling `stop_session` while Idle is a no-op
returning `Ok(None)`: the manager (state, current session slot, segment
buffer, context buffer) is returned completely unchanged. -/
theorem stop_session_idle_noop (now : Int) (m : AL.ALManager)
    (h : m.state = AL.ALState.Idle) :
    AL.stop_session now m = (m, none) := by
  unfold AL.stop_session
  rw [if_pos h]

/-- Witness for C10 at a concrete Idle manager. -/
theorem stop_session_idle_noop_witness :
    AL.stop_session 5 ⟨AL.ALState.Idle, none, [], none, ["ctx"], none⟩ =
      (⟨AL.ALState.Idle, none, [], none, ["ctx"], none⟩, none) :=
  stop_session_idle_noop 5 _ rfl

/-- **C8 counterexample**: a recording owned by the caller whose buffer is
empty (0 samples, which is "shorter than 1 s") is returned as-is —
`stop_recording` pads only when `s_len > 0`, so the claimed 20000-sample
result does not materialize. -/
theorem stop_recording_empty_unpadded :
    (Audio.stop_recording "b" [] ⟨Audio.RecordingState.Recording "b", true⟩).2 =
      some ([] : List ℚ) ∧
    ¬ (([] : List ℚ).length = 20000) := by
  constructor
  · rfl
  · decide

/-- **C8** (corrected): for a recording owned by the calling binding, a
*non-empty* buffer shorter than 1 s at 16 kHz (fewer than 16000 samples) is
right-padded with zeros to exactly 20000 samples (1.25 s); buffers of at
least 16000 samples are returned unchanged.  (An empty buffer is also
returned unchanged — see the counterexample.) -/
theorem stop_recording_padding (binding : String) (recorded : List ℚ) (st : Audio.RecState)
    (hown : st.state = Audio.RecordingState.Recording binding) :
    (recorded.length < 16000 → 0 < recorded.length →
       (Audio.stop_recording binding recorded st).2 =
         some (recorded ++ List.replicate (20000 - recorded.length) 0) ∧
       (recorded ++ List.replicate (20000 - recorded.length) (0 : ℚ)).length = 20000) ∧
    (16000 ≤ recorded.length →
       (Audio.stop_recording binding recorded st).2 = some recorded) ∧
    (Audio.stop_recording binding recorded st).1.state = Audio.RecordingState.Idle := by
  obtain ⟨s, flag⟩ := st
  simp only at hown
  subst hown
  have hrate : Audio.WHISPER_SAMPLE_RATE * 5 / 4 = 20000 := by
    norm_num [Audio.WHISPER_SAMPLE_RATE]
  have hres : Audio.stop_recording binding recorded
      ⟨Audio.RecordingState.Recording binding, flag⟩ =
      (⟨Audio.RecordingState.Idle, false⟩,
       some (if recorded.length < Audio.WHISPER_SAMPLE_RATE ∧ recorded.length > 0 then
          recorded ++
            List.replicate (Audio.WHISPER_SAMPLE_RATE * 5 / 4 - recorded.length) (0 : ℚ)
        else recorded)) := by
    simp [Audio.stop_recording]
  rw [hres]
  refine ⟨fun hlt hpos => ⟨?_, ?_⟩, fun hge => ?_, rfl⟩
  · rw [hrate]
    simp only
    rw [if_pos ⟨by simpa [Audio.WHISPER_SAMPLE_RATE] using hlt, hpos⟩]
  · simp only [List.length_append, List.length_replicate]
    omega
  · simp only
    rw [if_neg (by simp [Audio.WHISPER_SAMPLE_RATE]; omega)]

/-- Witness for C8: a 1-sample recording is padded to 20000 samples. -/
theorem stop_recording_padding_witness :
    (Audio.stop_recording "a" [1] ⟨Audio.RecordingState.Recording "a", true⟩).2 =
      some ([1] ++ List.replicate (20000 - 1) (0 : ℚ)) ∧
    (([1] : List ℚ) ++ List.replicate (20000 - 1) (0 : ℚ)).length = 20000 :=
  (stop_recording_padding "a" [1] ⟨Audio.RecordingState.Recording "a", true⟩ rfl).1
    (by decide) (by decide)

/-- While some binding owns the recording, any sequence of calls that never
cancels and never stops via the owner leaves the owner in place. -/
theorem recording_owner_stable (a : String) (evs : List Audio.RecEvent) :
    ∀ st : Audio.RecState, st.state = Audio.RecordingState.Recording a →
      (∀ e ∈ evs, ¬ Audio.releasesOwnership a e) →
      (Audio.recRun st evs).state = Audio.RecordingState.Recording a := by
  induction evs with
  | nil => intro st hst _; exact hst
  | cons e rest ih =>
      intro st hst hall
      have hstep : (Audio.recStep st e).state = Audio.RecordingState.Recording a := by
        have he := hall e (List.mem_cons_self e rest)
        cases e with
        | tryStart b ok =>
            simp only [Audio.recStep, Audio.try_start_recording, hst]
        | stop b rec =>
            have hba : b ≠ a := by
              simp only [Audio.releasesOwnership] at he
              exact he
            simp only [Audio.recStep, Audio.stop_recording, hst]
            rw [if_neg (fun hab => hba (hab.symm))]
            exact hst
        | cancel =>
            simp [Audio.releasesOwnership] at he
      have hrest : ∀ e' ∈ rest, ¬ Audio.releasesOwnership a e' :=
        fun e' he' => hall e' (List.mem_cons_of_mem e he')
      simpa [Audio.recRun, List.foldl_cons] using
        ih (Audio.recStep st e) hstep hrest

/-- **C4** (confirmed): recording is exclusive.  When `try_start_recording a`
returns `true` the state records `a` as owner; from that state every
`try_start_recording b` (any `b`, in particular `b ≠ a`) returns `false`
without pre-empting, `stop_recording b` with `b ≠ a` changes nothing, and
over any sequence of calls that contains neither `cancel_recording` nor a
`stop_recording` by `a` the owner stays `a`; `stop_recording a` and
`cancel_recording` return the state to Idle. -/
theorem recording_exclusivity (a : String) (ok : Bool) (st st' : Audio.RecState)
    (h : Audio.try_start_recording a ok st = (true, st')) :
    st'.state = Audio.RecordingState.Recording a ∧
    (∀ b ok2, Audio.try_start_recording b ok2 st' = (false, st')) ∧
    (∀ b rec, b ≠ a → Audio.stop_recording b rec st' = (st', none)) ∧
    (∀ rec, (Audio.stop_recording a rec st').1.state = Audio.RecordingState.Idle) ∧
    (Audio.cancel_recording st').state = Audio.RecordingState.Idle ∧
    (∀ evs, (∀ e ∈ evs, ¬ Audio.releasesOwnership a e) →
       (Audio.recRun st' evs).state = Audio.RecordingState.Recording a) := by
  have hst' : st' = ⟨Audio.RecordingState.Recording a, true⟩ := by
    rcases st with ⟨s, flag⟩
    cases s with
    | Idle =>
        cases ok with
        | false => simp [Audio.try_start_recording] at h
        | true =>
            simp only [Audio.try_start_recording, if_true] at h
            exact (Prod.mk.injEq _ _ _ _ ▸ h).2.symm
    | Recording b => simp [Audio.try_start_recording] at h
  subst hst'
  refine ⟨rfl, fun b ok2 => rfl, fun b rec hba => ?_, fun rec => ?_, rfl, ?_⟩
  · simp only [Audio.stop_recording]
    rw [if_neg (fun hab => hba (hab.symm))]
  · simp [Audio.stop_recording]
  · intro evs hall
    exact recording_owner_stable a evs _ rfl hall

/-- **C1 counterexample**: a segment task spawned (with `session_id` and
`topic` captured) before `stop_session` does *not* attach its insight to the
closed session.  Concretely: the task for session `"s1"` is spawned, the
session is stopped (`ended_at = 100`, slot emptied), and the late
`add_insight_to_session "s1"` is a no-op — the closed snapshot still has no
insights, contradicting the claim that the insight is kept. -/
theorem insight_after_stop_dropped :
    let m0 : AL.ALManager :=
      ⟨AL.ALState.Listening, some ⟨"s1", 0, none, none, []⟩, [1], some 0, [], none⟩
    let spawned := AL.trigger_segment_processing 0 m0
    let stopped := AL.stop_session 100 spawned.1
    spawned.2 = some ⟨[1], "s1", none, none⟩ ∧
    stopped.2 = some ⟨"s1", 0, some 100, none, []⟩ ∧
    AL.add_insight_to_session "s1" ⟨150, "seg text", "note", 15000, none, none⟩ stopped.1 =
      stopped.1 := by
  decide

/-- **C1** (corrected): `session_id` and `topic` are captured before the
task is spawned and no new segment may start after stop (`push_audio_samples`
is a no-op that spawns nothing once the state is Idle); but an insight
arriving *after* `stop_session` finds the current-session slot cleared
(`current.take()`) and is silently dropped rather than attached: the closed
snapshot returned by stop holds exactly the insights appended before stop. -/
theorem stop_session_drops_late_insights (now : Int) (m : AL.ALManager)
    (h : m.state ≠ AL.ALState.Idle) :
    (AL.stop_session now m).1.state = AL.ALState.Idle ∧
    (AL.stop_session now m).1.current_session = none ∧
    (AL.stop_session now m).2 =
      m.current_session.map (fun s => { s with ended_at := some now }) ∧
    (∀ sid ins, AL.add_insight_to_session sid ins (AL.stop_session now m).1 =
       (AL.stop_session now m).1) ∧
    (∀ samples n d sp,
       AL.push_audio_samples samples n d sp (AL.stop_session now m).1 =
         ((AL.stop_session now m).1, none)) := by
  have hs : AL.stop_session now m =
      ({ m with
          state := AL.ALState.Idle
          current_session := none
          segment_buffer := []
          segment_start_time := none },
       m.current_session.map (fun s => { s with ended_at := some now })) := by
    simp only [AL.stop_session]
    rw [if_neg h]
  rw [hs]
  refine ⟨rfl, rfl, rfl, fun sid ins => rfl, fun samples n d sp => ?_⟩
  simp [AL.push_audio_samples]

/-- Witness for C1's corrected statement at a concrete Processing manager. -/
theorem stop_session_drops_late_insights_witness :
    (AL.stop_session 100
        ⟨AL.ALState.Processing, some ⟨"s1", 0, none, none, []⟩, [], none, [], none⟩).1.2 =
      none ∧
    AL.add_insight_to_session "s1" ⟨150, "t", "i", 1, none, none⟩
        (AL.stop_session 100
          ⟨AL.ALState.Processing, some ⟨"s1", 0, none, none, []⟩, [], none, [], none⟩).1 =
      (AL.stop_session 100
        ⟨AL.ALState.Processing, some ⟨"s1", 0, none, none, []⟩, [], none, [], none⟩).1 := by
  have h := stop_session_drops_late_insights 100
    ⟨AL.ALState.Processing, some ⟨"s1", 0, none, none, []⟩, [], none, [], none⟩ (by decide)
  exact ⟨h.2.1, h.2.2.2.1 "s1" _⟩

/-- `str::replace` leaves the empty haystack empty at any fuel. -/
theorem replaceListAux_nil (pat rep : List Char) (fuel : Nat) :
    Ollama.replaceListAux pat rep fuel [] = [] := by
  cases fuel <;> rfl

/-- Replacing a non-empty pattern inside exactly itself yields the
replacement. -/
theorem replaceList_self (pat rep : List Char) (h : pat ≠ []) :
    Ollama.replaceList pat rep pat = rep := by
  cases pat with
  | nil => exact absurd rfl h
  | cons c cs =>
      simp only [Ollama.replaceList, List.length_cons, Ollama.replaceListAux]
      rw [if_pos ⟨by simp, by simp [List.isPrefixOf_iff_prefix]⟩]
      simp [replaceListAux_nil, List.drop_length]

/-- When the pattern occurs nowhere in the haystack, `str::replace` is the
identity (auxiliary, any fuel). -/
theorem replaceListAux_not_infix (pat rep : List Char) :
    ∀ (fuel : Nat) (s : List Char), ¬ pat <:+: s →
      Ollama.replaceListAux pat rep fuel s = s := by
  intro fuel
  induction fuel with
  | zero => intro s _; rfl
  | succ n ih =>
      intro s hs
      cases s with
      | nil => rfl
      | cons c cs =>
          have hpre : ¬ (pat.isPrefixOf (c :: cs) = true) := fun hp =>
            hs (List.isPrefixOf_iff_prefix.mp hp).isInfix
          rw [Ollama.replaceListAux, if_neg (fun hc => hpre hc.2)]
          congr 1
          exact ih cs (fun hinf => hs (List.infix_cons hinf))

/-- When the pattern occurs nowhere in the haystack, `str::replace` is the
identity. -/
theorem replaceList_not_infix (pat rep s : List Char) (h : ¬ pat <:+: s) :
    Ollama.replaceList pat rep s = s :=
  replaceListAux_not_infix pat rep s.length s h

/-- **C2 counterexample**: with template `\x7b\x7btranscription\x7d\x7d` and
a transcription value that is the literal `\x7b\x7bprevious_context\x7d\x7d`
placeholder, the templating returns the previous-context *value* (`"X"`),
not the literal placeholder — the later `replace` re-matches text the
earlier one introduced, so the claimed single-pass behavior is false. -/
theorem template_rematches_inner :
    Ollama.apply_prompt_template_with_rag Ollama.transcriptionVar Ollama.previousContextVar
        "X".toList none none = "X".toList ∧
    "X".toList ≠ Ollama.previousContextVar := by
  constructor
  · decide
  · decide

/-- **C2** (corrected): prompt templating is *sequential*, not single-pass:
the four placeholders are replaced one after another, so a later
substitution re-matches text introduced by an earlier one.  In particular,
for template `\x7b\x7btranscription\x7d\x7d` and transcription value
`\x7b\x7bprevious_context\x7d\x7d`, the result is the previous-context
value itself (whenever that value does not contain the two later
placeholders), not the literal `\x7b\x7bprevious_context\x7d\x7d`. -/
theorem template_sequential_replacement (pc : List Char) (topic rag : Option (List Char))
    (h1 : ¬ Ollama.sessionTopicVar <:+: pc)
    (h2 : ¬ Ollama.retrievedContextVar <:+: pc) :
    Ollama.apply_prompt_template_with_rag Ollama.transcriptionVar Ollama.previousContextVar
      pc topic rag = pc := by
  simp only [Ollama.apply_prompt_template_with_rag]
  rw [replaceList_self Ollama.transcriptionVar Ollama.previousContextVar (by decide),
    replaceList_self Ollama.previousContextVar pc (by decide),
    replaceList_not_infix _ _ _ h1, replaceList_not_infix _ _ _ h2]

/-- Witness for C2's corrected statement at concrete values. -/
theorem template_sequential_replacement_witness :
    Ollama.apply_prompt_template_with_rag Ollama.transcriptionVar Ollama.previousContextVar
      "X".toList (some "T".toList) (some "R".toList) = "X".toList :=
  template_sequential_replacement "X".toList (some "T".toList) (some "R".toList)
    (by decide) (by decide)

/-- Each window the chunker cuts has at most 500 characters. -/
theorem chunkWindow_length_le (chars : List Char) (start : Nat) :
    (Rag.chunkWindow chars start).length ≤ 500 := by
  simp only [Rag.chunkWindow, List.length_take, List.length_drop]
  omega

/-- Each truncated chunk has at most 500 characters. -/
theorem chunkCut_length_le (chars : List Char) (start : Nat) :
    (Rag.chunkCut chars start).length ≤ 500 := by
  have hw := chunkWindow_length_le chars start
  unfold Rag.chunkCut
  split
  · split
    · simp only [List.length_take]
      omega
    · split
      · simp only [List.length_take]
        omega
      · exact hw
  · exact hw

/-- Whenever the chunk loop terminates, every chunk it emitted has at most
500 characters and contains a non-whitespace character. -/
theorem chunkLoop_sound (chars : List Char) :
    ∀ (fuel start : Nat) (cs : List (List Char)),
      Rag.chunkLoop chars fuel start = some cs →
      ∀ c ∈ cs, c.length ≤ 500 ∧ Rag.hasNonWs c = true := by
  intro fuel
  induction fuel with
  | zero =>
      intro start cs h
      simp [Rag.chunkLoop] at h
  | succ n ih =>
      intro start cs h
      rw [Rag.chunkLoop] at h
      split at h
      · obtain rfl : ([] : List (List Char)) = cs := Option.some.inj h
        intro c hc
        simp at hc
      · split at h
        · exact absurd h (by simp)
        · next rest hrest =>
            obtain rfl := Option.some.inj h
            intro c hc
            split at hc
            · next hws =>
                rcases List.mem_cons.mp hc with rfl | hcrest
                · exact ⟨chunkCut_length_le chars start, hws⟩
                · exact ih _ rest hrest c hcrest
            · exact ih _ rest hrest c hc

set_option maxRecDepth 8192 in
/-- **C6 counterexample**: for the 501-character text `éé…é` (each `é` is
two UTF-8 bytes) the chunker emits a single 500-character chunk and stops:
`start` advances by the chunk's *byte* length (1000) minus the overlap,
overshooting the character count, so the final character is lost.
Concatenating all chunks without their overlap regions yields 500 `é`,
which differs from the 501-`é` source by more than trailing whitespace. -/
theorem chunker_drops_characters :
    Rag.chunk_text 2 (List.replicate 501 'é') = some [List.replicate 500 'é'] ∧
    Rag.stripTrailingWs (Rag.reconstructChunks [List.replicate 500 'é']) ≠
      Rag.stripTrailingWs (List.replicate 501 'é') := by
  constructor
  · decide
  · decide

/-- **C6** (corrected): whenever the chunking loop terminates, every chunk
has at most 500 characters, and for texts *longer* than 500 characters
every emitted chunk contains a non-whitespace character.  But a text of at
most 500 characters is returned verbatim as a single chunk even when it is
whitespace-only, and lossless coverage does not hold in general: the start
index advances by the chunk's UTF-8 byte length, so texts with multi-byte
characters lose characters (see the counterexample). -/
theorem chunk_text_bounds (fuel : Nat) (text : List Char) (chunks : List (List Char))
    (h : Rag.chunk_text fuel text = some chunks) :
    (∀ c ∈ chunks, c.length ≤ 500) ∧
    (500 < text.length → ∀ c ∈ chunks, Rag.hasNonWs c = true) ∧
    (text.length ≤ 500 → chunks = [text]) := by
  by_cases hlen : text.length ≤ 500
  · unfold Rag.chunk_text at h
    rw [if_pos hlen] at h
    obtain rfl : [text] = chunks := Option.some.inj h
    refine ⟨?_, fun h500 => absurd hlen (by omega), fun _ => rfl⟩
    intro c hc
    rcases List.mem_singleton.mp hc with rfl
    exact hlen
  · unfold Rag.chunk_text at h
    rw [if_neg hlen] at h
    have hs := chunkLoop_sound text fuel 0 chunks h
    exact ⟨fun c hc => (hs c hc).1, fun _ c hc => (hs c hc).2,
      fun hle => absurd hle hlen⟩

set_option maxRecDepth 8192 in
/-- Witness for C6's corrected statement on a concrete 501-character text
that the loop finishes on. -/
theorem chunk_text_bounds_witness :
    (List.replicate 500 'é').length ≤ 500 := by
  have h := chunk_text_bounds 3 (List.replicate 501 'é') [List.replicate 500 'é'] (by decide)
  exact h.1 (List.replicate 500 'é') (List.mem_singleton.mpr rfl)

/-- Decoding the little-endian bytes of a 32-bit pattern restores it. -/
theorem leBytes_decode_encode (x : Nat) (hx : x < 4294967296) :
    Rag.leBytesToU32 (Rag.u32ToLeBytes x) = x := by
  simp only [Rag.u32ToLeBytes, Rag.leBytesToU32]
  omega

/-- Dropping `4 + n` elements from a 4-cons list drops `n` from its tail. -/
theorem drop_four_cons (a b c d : Nat) (rest : List Nat) (n : Nat) :
    (a :: b :: c :: d :: rest).drop (4 + n) = rest.drop n := by
  rw [Nat.add_comm]
  simp [List.drop_succ_cons]

/-- **C7** (confirmed): `vec_to_blob` is the tightly packed little-endian
4-byte encoding — its length is `4 * len(v)`, position `i` holds exactly
the little-endian bytes of element `i`, every byte is below 256 — and
`blob_to_vec` inverts it exactly (bit-level round-trip identity, which in
particular bounds every element's round-trip error by 1e-6). -/
theorem blob_roundtrip (v : List Nat) (h : ∀ x ∈ v, x < 4294967296) :
    (Rag.vec_to_blob v).length = 4 * v.length ∧
    Rag.blob_to_vec (Rag.vec_to_blob v) = v ∧
    (∀ i, i < v.length →
       ((Rag.vec_to_blob v).drop (4 * i)).take 4 = Rag.u32ToLeBytes (v.getD i 0)) ∧
    (∀ b ∈ Rag.vec_to_blob v, b < 256) := by
  induction v with
  | nil =>
      exact ⟨rfl, rfl, fun i hi => absurd hi (by simp), by simp [Rag.vec_to_blob]⟩
  | cons x xs ih =>
      have hx : x < 4294967296 := h x (List.mem_cons_self x xs)
      obtain ⟨ihlen, ihrt, ihbytes, ihlt⟩ := ih (fun y hy => h y (List.mem_cons_of_mem x hy))
      have hblob : Rag.vec_to_blob (x :: xs) =
          x % 256 :: (x / 256 % 256) :: (x / 65536 % 256) :: (x / 16777216 % 256) ::
            Rag.vec_to_blob xs := by
        simp [Rag.vec_to_blob, Rag.u32ToLeBytes]
      refine ⟨?_, ?_, ?_, ?_⟩
      · rw [hblob]
        simp only [List.length_cons, List.length_cons, ihlen]
        ring
      · rw [hblob]
        simp only [Rag.blob_to_vec, Rag.chunks4, List.map_cons]
        rw [List.cons.injEq]
        refine ⟨?_, ?_⟩
        · have := leBytes_decode_encode x hx
          simpa [Rag.u32ToLeBytes] using this
        · simpa [Rag.blob_to_vec] using ihrt
      · intro i hi
        cases i with
        | zero =>
            rw [hblob]
            simp [Rag.u32ToLeBytes]
        | succ j =>
            rw [hblob, show 4 * (j + 1) = 4 + 4 * j from by ring, drop_four_cons]
            simpa using ihbytes j (by simpa using hi)
      · intro b hb
        rw [hblob] at hb
        simp only [List.mem_cons] at hb
        rcases hb with rfl | rfl | rfl | rfl | hb
        · omega
        · omega
        · omega
        · omega
        · exact ihlt b hb

/-- Witness for C7 at a concrete vector of three 32-bit patterns. -/
theorem blob_roundtrip_witness :
    Rag.blob_to_vec (Rag.vec_to_blob [1, 4294967295, 16909060]) = [1, 4294967295, 16909060] :=
  (blob_roundtrip [1, 4294967295, 16909060] (by decide)).2.1

/-- A vector of zeros has a zero sum of squares. -/
theorem sumsq_zero_of_all_zero (a : List ℝ) (h : ∀ x ∈ a, x = 0) : Rag.sumsq a = 0 := by
  unfold Rag.sumsq
  apply List.sum_eq_zero
  intro y hy
  obtain ⟨x, hx, rfl⟩ := List.mem_map.mp hy
  rw [h x hx]
  ring

/-- **C9** (confirmed): `cosine_similarity` is total and returns exactly 0
when the lengths differ, when the vectors are empty, or when either vector
has zero norm (in particular when a vector is all zeros); in the remaining
case the denominator `norm_a * norm_b` is provably non-zero — the division
is never by zero — and each `search` row whose decoded dimensions differ
from the query's scores exactly 0. -/
theorem cosine_similarity_guards (a b : List ℝ) :
    (a.length ≠ b.length → Rag.cosine_similarity a b = 0) ∧
    (a = [] → Rag.cosine_similarity a b = 0) ∧
    (Rag.vnorm a = 0 ∨ Rag.vnorm b = 0 → Rag.cosine_similarity a b = 0) ∧
    ((∀ x ∈ a, x = 0) → Rag.cosine_similarity a b = 0) ∧
    (a.length = b.length → a ≠ [] → Rag.vnorm a ≠ 0 → Rag.vnorm b ≠ 0 →
       Rag.vnorm a * Rag.vnorm b ≠ 0 ∧
       Rag.cosine_similarity a b = Rag.dotf a b / (Rag.vnorm a * Rag.vnorm b)) ∧
    (∀ (rows : List (List ℝ)) (i : Nat) (row : List ℝ),
       rows[i]? = some row → row.length ≠ a.length →
       (Rag.searchSimilarities a rows)[i]? = some 0) := by
  have hzero : Rag.vnorm a = 0 ∨ Rag.vnorm b = 0 → Rag.cosine_similarity a b = 0 := by
    intro h
    unfold Rag.cosine_similarity
    by_cases hc : a.length ≠ b.length ∨ a = []
    · rw [if_pos hc]
    · rw [if_neg hc, if_pos h]
  have hmismatch : ∀ u v : List ℝ, u.length ≠ v.length → Rag.cosine_similarity u v = 0 := by
    intro u v huv
    unfold Rag.cosine_similarity
    rw [if_pos (Or.inl huv)]
  refine ⟨hmismatch a b, ?_, hzero, ?_, ?_, ?_⟩
  · intro h
    unfold Rag.cosine_similarity
    rw [if_pos (Or.inr h)]
  · intro h
    apply hzero
    left
    unfold Rag.vnorm
    rw [sumsq_zero_of_all_zero a h, Real.sqrt_zero]
  · intro hlen hne hna hnb
    refine ⟨mul_ne_zero hna hnb, ?_⟩
    unfold Rag.cosine_similarity
    rw [if_neg (by push_neg; exact ⟨hlen, hne⟩), if_neg (by push_neg; exact ⟨hna, hnb⟩)]
  · intro rows i row hrow hlen
    unfold Rag.searchSimilarities
    rw [List.getElem?_map, hrow]
    show some (Rag.cosine_similarity a row) = some 0
    rw [hmismatch a row (fun hal => hlen hal.symm)]

/-- Witness for C9 at concrete vectors of mismatched lengths. -/
theorem cosine_similarity_guards_witness :
    Rag.cosine_similarity [1] [1, 2] = 0 :=
  (cosine_similarity_guards [1] [1, 2]).1 (by decide)

/-- Witness for C4: after `a` starts, `b`'s start attempt fails and a
sequence of non-releasing calls leaves `a` the owner. -/
theorem recording_exclusivity_witness :
    Audio.try_start_recording "b" true ⟨Audio.RecordingState.Recording "a", true⟩ =
      (false, ⟨Audio.RecordingState.Recording "a", true⟩) ∧
    (Audio.recRun ⟨Audio.RecordingState.Recording "a", true⟩
        [Audio.RecEvent.tryStart "b" true, Audio.RecEvent.stop "c" []]).state =
      Audio.RecordingState.Recording "a" := by
  have h := recording_exclusivity "a" true ⟨Audio.RecordingState.Idle, false⟩
    ⟨Audio.RecordingState.Recording "a", true⟩ rfl
  refine ⟨h.2.1 "b" true, h.2.2.2.2.2 _ ?_⟩
  intro e he
  simp only [List.mem_cons, List.not_mem_nil, or_false] at he
  rcases he with rfl | rfl
  · simp [Audio.releasesOwnership]
  · simp only [Audio.releasesOwnership]
    decide

end Handy
